import Mathlib

/-!
Shallow embedding of the OAuth 2.0 subsystem of feedmix
(`src/pkg/oauth/oauth.go`, plus the `RefreshAccessToken` snapshot in
`src/unnamed/part_008`), and proofs of the specification claims about it.

Go strings are modelled as `List Char` (sequences of code points); Go
`int64` is modelled as `Int`, with the 64-bit range made explicit where
it matters.  Fallible operations return `Option`/`Except`.
-/

namespace Feedmix

/-- Go strings, modelled as lists of code points. -/
abbrev Str := List Char

def str (s : String) : Str := s.toList

/-! ## Config (`oauth.go` lines 26-49) -/

structure Config where
  clientID     : Str
  clientSecret : Str
  authURL      : Str
  tokenURL     : Str
  redirectURL  : Str
  scopes       : List Str
deriving DecidableEq, Repr

/-- Model of `Config.Validate` (`oauth.go` lines 35-49): checks each required field
in order and returns the first failure's message, or `none` for nil. -/
def Config.Validate (c : Config) : Option Str :=
  if c.clientID = [] then some (str "client ID is required")
  else if c.clientSecret = [] then some (str "client secret is required")
  else if c.redirectURL = [] then some (str "redirect URL is required")
  else if c.scopes.length = 0 then some (str "at least one scope is required")
  else none

/-! ## URL query encoding (Go `net/url`, as used by `GenerateAuthURL`) -/

/-- Uppercase hex digit, as used by Go `net/url` percent-escaping. -/
def hexUpper (n : Nat) : Char :=
  if n < 10 then Char.ofNat (48 + n) else Char.ofNat (65 + (n - 10))

/-- Lowercase hex digit, as used by Go `encoding/hex`. -/
def hexLower (n : Nat) : Char :=
  if n < 10 then Char.ofNat (48 + n) else Char.ofNat (97 + (n - 10))

/-- Model of `hex.EncodeToString` (`oauth.go` line 95): two lowercase hex digits per
byte.  Inputs are bytes, so the `% 16` on the high nibble is the identity
for values below 256. -/
def hexEncodeBytes (bs : List Nat) : Str :=
  bs.flatMap fun b => [hexLower ((b / 16) % 16), hexLower (b % 16)]

/-- UTF-8 encoding of one code point, byte by byte (Go strings are UTF-8;
`url.QueryEscape` escapes byte-wise). -/
def utf8Bytes (c : Char) : List Nat :=
  let n := c.toNat
  if n < 0x80 then [n]
  else if n < 0x800 then [0xC0 + n / 0x40, 0x80 + n % 0x40]
  else if n < 0x10000 then
    [0xE0 + n / 0x1000, 0x80 + (n / 0x40) % 0x40, 0x80 + n % 0x40]
  else
    [0xF0 + n / 0x40000, 0x80 + (n / 0x1000) % 0x40,
     0x80 + (n / 0x40) % 0x40, 0x80 + n % 0x40]

/-- Characters `url.QueryEscape` leaves unescaped: ASCII letters, digits,
and `-`, `_`, `.`, `~`. -/
def isUnreservedQueryChar (c : Char) : Bool :=
  (65 ≤ c.toNat && c.toNat ≤ 90) || (97 ≤ c.toNat && c.toNat ≤ 122) ||
  (48 ≤ c.toNat && c.toNat ≤ 57) ||
  c = '-' || c = '_' || c = '.' || c = '~'

/-- Go `url.QueryEscape`: unreserved characters pass through, space
becomes `+`, everything else is `%XX` per UTF-8 byte. -/
def queryEscape (s : Str) : Str :=
  s.flatMap fun c =>
    if isUnreservedQueryChar c then [c]
    else if c = ' ' then ['+']
    else (utf8Bytes c).flatMap fun b => ['%', hexUpper (b / 16), hexUpper (b % 16)]

/-- Byte-lexicographic order on strings, as used by `sort.Strings` inside
`url.Values.Encode` (UTF-8 byte order agrees with code-point order). -/
def strLt : Str → Str → Bool
  | [], [] => false
  | [], _ :: _ => true
  | _ :: _, [] => false
  | a :: as, b :: bs =>
    if a.toNat < b.toNat then true
    else if b.toNat < a.toNat then false
    else strLt as bs

/-- Model of `url.Values` restricted to the single-value entries produced by
`Values.Set`: an association list from key to value. -/
abbrev Values := List (Str × Str)

/-- Model of `url.Values.Set`: replace any existing entry for the key. -/
def Values.set (vs : Values) (k v : Str) : Values :=
  vs.filter (fun p => p.1 ≠ k) ++ [(k, v)]

/-- Insert into a key-sorted list (helper for `Values.encode`). -/
def insertByKey (p : Str × Str) : Values → Values
  | [] => [p]
  | q :: qs => if strLt p.1 q.1 then p :: q :: qs else q :: insertByKey p qs

/-- Sort an association list by key (helper for `Values.encode`). -/
def sortByKey : Values → Values
  | [] => []
  | p :: ps => insertByKey p (sortByKey ps)

/-- Model of `url.Values.Encode`: keys sorted byte-wise, each entry rendered as
`escape(k)=escape(v)`, joined with `&`. -/
def Values.encode (vs : Values) : Str :=
  List.intercalate ['&']
    ((sortByKey vs).map fun p => queryEscape p.1 ++ ['='] ++ queryEscape p.2)

/-! ## Token (`oauth.go` lines 62-67) -/

structure Token where
  accessToken  : Str
  refreshToken : Str
  tokenType    : Str
  expiresIn    : Int
deriving DecidableEq, Repr

/-! ## `Flow.GenerateAuthURL` (`oauth.go` lines 92-106) -/

/-- Model of `Flow.GenerateAuthURL`.  The 16 bytes filled in by `crypto/rand.Read`
are passed in as `stateBytes`; the function is otherwise a pure
construction (no network call in the source).  Returns
`(authURL, state)`. -/
def GenerateAuthURL (cfg : Config) (stateBytes : List Nat) : Str × Str :=
  let state := hexEncodeBytes stateBytes
  let params : Values :=
    Values.set (Values.set (Values.set (Values.set (Values.set (Values.set []
      (str "client_id") cfg.clientID)
      (str "redirect_uri") cfg.redirectURL)
      (str "scope") (List.intercalate [' '] cfg.scopes))
      (str "state") state)
      (str "response_type") (str "code"))
      (str "access_type") (str "offline")
  (cfg.authURL ++ ['?'] ++ params.encode, state)

/-! ## JSON (Go `encoding/json`, as used for `Token` bodies and files)

The source calls `json.Unmarshal(body, &token)` and `json.Marshal(token)`.
We embed the relevant fragment of `encoding/json`: a JSON value grammar,
a recursive-descent parser matching Go's scanner, Go's string escaping
(with HTML escaping, as `json.Marshal` performs by default), and the
struct decoding rules for the four `Token` fields (unknown keys ignored,
key match case-insensitive, `null` is a no-op, type mismatches and
out-of-range `expires_in` values are errors). -/

/-- JSON values.  Numbers carry their mathematical integer value together
with an `integral` flag: Go decodes a number into an `int64` field only
when the literal has no fraction or exponent part (`strconv.ParseInt` on
the literal), which is what `integral` records; for non-integral literals
the stored value is just the integer part and is never used. -/
inductive Json where
  | null
  | boolean (b : Bool)
  | num (v : Int) (integral : Bool)
  | string (s : Str)
  | obj (members : List (Str × Json))
  | arr (elems : List Json)

/-- JSON whitespace (Go scanner: space, tab, newline, carriage return). -/
def isJsonWs (c : Char) : Bool :=
  c = ' ' || c = '\t' || c = '\n' || c = '\r'

def skipWs (s : Str) : Str := s.dropWhile isJsonWs

/-- Value of a hex digit, for `\string u` escapes. -/
def hexVal (c : Char) : Option Nat :=
  if 48 ≤ c.toNat ∧ c.toNat ≤ 57 then some (c.toNat - 48)
  else if 97 ≤ c.toNat ∧ c.toNat ≤ 102 then some (c.toNat - 87)
  else if 65 ≤ c.toNat ∧ c.toNat ≤ 70 then some (c.toNat - 55)
  else none

def hex4 (a b c d : Char) : Option Nat := do
  let x ← hexVal a
  let y ← hexVal b
  let z ← hexVal c
  let w ← hexVal d
  pure (4096 * x + 256 * y + 16 * z + w)

/-- Decoding of the one-character escapes accepted by the Go scanner. -/
def unescapeChar (e : Char) : Option Char :=
  if e = '"' then some '"'
  else if e = '\\' then some '\\'
  else if e = '/' then some '/'
  else if e = 'b' then some (Char.ofNat 8)
  else if e = 'f' then some (Char.ofNat 12)
  else if e = 'n' then some (Char.ofNat 10)
  else if e = 'r' then some (Char.ofNat 13)
  else if e = 't' then some (Char.ofNat 9)
  else none

/-- Parse the body of a JSON string after its opening quote, returning
the decoded characters and the input after the closing quote.  Matches
Go's `unquote`: raw control characters are rejected, `\string u` escapes are
decoded with surrogate pairs combined and unpaired surrogates replaced
by U+FFFD.  Every step consumes at least one input character and one
unit of fuel, so fuel equal to the input length always suffices (callers
pass exactly that). -/
def parseStringBody : Nat → Str → Option (Str × Str)
  | 0, _ => none
  | _ + 1, [] => none
  | fuel + 1, c :: cs =>
    if c = '"' then some ([], cs)
    else if c = '\\' then
      match cs with
      | [] => none
      | e :: rest =>
        if e = 'u' then
          match rest with
          | h1 :: h2 :: h3 :: h4 :: rest2 =>
            match hex4 h1 h2 h3 h4 with
            | none => none
            | some n =>
              if n < 0xD800 ∨ 0xDFFF < n then
                (parseStringBody fuel rest2).map fun p => (Char.ofNat n :: p.1, p.2)
              else
                match rest2 with
                | b1 :: u1 :: g1 :: g2 :: g3 :: g4 :: rest3 =>
                  if b1 = '\\' ∧ u1 = 'u' then
                    match hex4 g1 g2 g3 g4 with
                    | none =>
                      (parseStringBody fuel (b1 :: u1 :: g1 :: g2 :: g3 :: g4 :: rest3)).map
                        fun p => (Char.ofNat 0xFFFD :: p.1, p.2)
                    | some m =>
                      if n < 0xDC00 ∧ 0xDC00 ≤ m ∧ m ≤ 0xDFFF then
                        (parseStringBody fuel rest3).map fun p =>
                          (Char.ofNat (0x10000 + (n - 0xD800) * 0x400 + (m - 0xDC00)) :: p.1,
                           p.2)
                      else
                        (parseStringBody fuel (b1 :: u1 :: g1 :: g2 :: g3 :: g4 :: rest3)).map
                          fun p => (Char.ofNat 0xFFFD :: p.1, p.2)
                  else
                    (parseStringBody fuel (b1 :: u1 :: g1 :: g2 :: g3 :: g4 :: rest3)).map
                      fun p => (Char.ofNat 0xFFFD :: p.1, p.2)
                | _ => (parseStringBody fuel rest2).map fun p => (Char.ofNat 0xFFFD :: p.1, p.2)
          | _ => none
        else
          match unescapeChar e with
          | none => none
          | some d => (parseStringBody fuel rest).map fun p => (d :: p.1, p.2)
    else if c.toNat < 0x20 then none
    else (parseStringBody fuel cs).map fun p => (c :: p.1, p.2)

/-- Digit-sequence value (digits are consumed most significant first). -/
def digitsToNat (ds : Str) : Nat := ds.foldl (fun a c => 10 * a + (c.toNat - 48)) 0

/-- Optional fraction and exponent after the integer part of a JSON
number; returns whether the literal was integral (neither part present)
and the rest of the input. -/
def parseFracExp (s : Str) : Option (Bool × Str) := do
  let (hasFrac, s1) ←
    match s with
    | '.' :: r =>
      let (ds, r2) := r.span Char.isDigit
      if ds = [] then none else some (true, r2)
    | _ => some (false, s)
  match s1 with
  | e :: r =>
    if e = 'e' ∨ e = 'E' then
      let r2 := match r with
        | '+' :: x => x
        | '-' :: x => x
        | _ => r
      let (ds, r3) := r2.span Char.isDigit
      if ds = [] then none else some (false, r3)
    else some (¬hasFrac, s1)
  | [] => some (¬hasFrac, s1)

/-- Parse a JSON number per the Go scanner grammar (`-?` then `0` or a
nonzero-led digit run, optional fraction and exponent).  Returns the
integer value, the integral flag, and the rest. -/
def parseNumber (s : Str) : Option (Int × Bool × Str) :=
  let p : Bool × Str :=
    match s with
    | c :: r => if c = '-' then (true, r) else (false, c :: r)
    | [] => (false, [])
  let (ds, s2) := p.2.span Char.isDigit
  if ds = [] then none
  else if ds.length > 1 ∧ ds.head? = some '0' then none
  else do
    let (integral, s3) ← parseFracExp s2
    let v : Int := if p.1 then -(digitsToNat ds : Int) else (digitsToNat ds : Int)
    some (v, integral, s3)

mutual

/-- Parse one JSON value (whitespace allowed before it), returning the
value and the rest of the input.  The fuel bounds recursion depth; every
recursive step first consumes at least one input character, so
`length + 1` fuel always suffices. -/
def parseVal : Nat → Str → Option (Json × Str)
  | 0, _ => none
  | fuel + 1, s =>
    match skipWs s with
    | [] => none
    | c :: cs =>
      if c = '"' then (parseStringBody cs.length cs).map fun p => (Json.string p.1, p.2)
      else if c = '{' then parseMembers fuel cs
      else if c = '[' then parseElems fuel cs
      else if c = 't' then
        match cs with
        | 'r' :: 'u' :: 'e' :: r => some (Json.boolean true, r)
        | _ => none
      else if c = 'f' then
        match cs with
        | 'a' :: 'l' :: 's' :: 'e' :: r => some (Json.boolean false, r)
        | _ => none
      else if c = 'n' then
        match cs with
        | 'u' :: 'l' :: 'l' :: r => some (Json.null, r)
        | _ => none
      else if c = '-' ∨ c.isDigit then
        (parseNumber (c :: cs)).map fun p => (Json.num p.1 p.2.1, p.2.2)
      else none

/-- Parse the members of an object after its `\x7b`, including the
closing `\x7d`. -/
def parseMembers : Nat → Str → Option (Json × Str)
  | 0, _ => none
  | fuel + 1, s =>
    match skipWs s with
    | [] => none
    | c :: cs =>
      if c = '}' then some (Json.obj [], cs)
      else if c = '"' then
        match parseStringBody cs.length cs with
        | none => none
        | some (k, r1) =>
          match skipWs r1 with
          | ':' :: r2 =>
            match parseVal fuel r2 with
            | none => none
            | some (v, r3) =>
              match parseMembersMore fuel r3 with
              | none => none
              | some (ms, r4) => some (Json.obj ((k, v) :: ms), r4)
          | _ => none
      else none

/-- After one object member: either `,` and further members or the
closing `\x7d`. -/
def parseMembersMore : Nat → Str → Option (List (Str × Json) × Str)
  | 0, _ => none
  | fuel + 1, s =>
    match skipWs s with
    | '}' :: r => some ([], r)
    | ',' :: r =>
      match skipWs r with
      | c :: cs =>
        if c = '"' then
          match parseStringBody cs.length cs with
          | none => none
          | some (k, r1) =>
            match skipWs r1 with
            | ':' :: r2 =>
              match parseVal fuel r2 with
              | none => none
              | some (v, r3) =>
                match parseMembersMore fuel r3 with
                | none => none
                | some (ms, r4) => some ((k, v) :: ms, r4)
            | _ => none
        else none
      | [] => none
    | _ => none

/-- Parse the elements of an array after its `[`, including the
closing `]`. -/
def parseElems : Nat → Str → Option (Json × Str)
  | 0, _ => none
  | fuel + 1, s =>
    match skipWs s with
    | ']' :: r => some (Json.arr [], r)
    | s1 =>
      match parseVal fuel s1 with
      | none => none
      | some (v, r1) =>
        match parseElemsMore fuel r1 with
        | none => none
        | some (vs, r2) => some (Json.arr (v :: vs), r2)

/-- After one array element: either `,` and further elements or the
closing `]`. -/
def parseElemsMore : Nat → Str → Option (List Json × Str)
  | 0, _ => none
  | fuel + 1, s =>
    match skipWs s with
    | ']' :: r => some ([], r)
    | ',' :: r =>
      match parseVal fuel r with
      | none => none
      | some (v, r1) =>
        match parseElemsMore fuel r1 with
        | none => none
        | some (vs, r2) => some (v :: vs, r2)
    | _ => none

end

/-- ASCII lower-casing, modelling the case-insensitive key match of the
Go struct decoder (the `Token` field tags are all ASCII). -/
def toLowerAscii (s : Str) : Str :=
  s.map fun c => if 65 ≤ c.toNat ∧ c.toNat ≤ 90 then Char.ofNat (c.toNat + 32) else c

/-- The all-zero `Token` that `var token Token` starts from. -/
def zeroToken : Token := ⟨[], [], [], 0⟩

/-- Go `int64` bounds, used by the decoder's range check on `expires_in`. -/
def int64Min : Int := -(2 ^ 63)

def int64Max : Int := 2 ^ 63 - 1

/-- Decode one object member into a `Token` under Go's struct rules:
keys are matched case-insensitively against the field tags, unknown keys
are ignored, `null` leaves the field unchanged, a string field requires
a JSON string, and `expires_in` requires an integral literal in `int64`
range. -/
def setTokenField (t : Token) (kv : Str × Json) : Option Token :=
  let k := toLowerAscii kv.1
  if k = str "access_token" then
    match kv.2 with
    | Json.string s => some { t with accessToken := s }
    | Json.null => some t
    | _ => none
  else if k = str "refresh_token" then
    match kv.2 with
    | Json.string s => some { t with refreshToken := s }
    | Json.null => some t
    | _ => none
  else if k = str "token_type" then
    match kv.2 with
    | Json.string s => some { t with tokenType := s }
    | Json.null => some t
    | _ => none
  else if k = str "expires_in" then
    match kv.2 with
    | Json.num v integral =>
      if integral ∧ int64Min ≤ v ∧ v ≤ int64Max then some { t with expiresIn := v }
      else none
    | Json.null => some t
    | _ => none
  else some t

/-- Decode a parsed JSON value into a `Token`: a top-level `null` is a
no-op on the zero value, an object is folded member by member (later
duplicates win, as in Go), anything else is a type error. -/
def tokenFromJson : Json → Option Token
  | Json.null => some zeroToken
  | Json.obj ms => ms.foldlM setTokenField zeroToken
  | _ => none

/-- Model of `json.Unmarshal(body, &token)`: parse exactly one JSON value
(surrounded by optional whitespace) and decode it into a `Token`. -/
def unmarshalToken (s : Str) : Option Token :=
  match parseVal (s.length + 1) s with
  | some (j, rest) => if skipWs rest = [] then tokenFromJson j else none
  | none => none

/-- Go `json.Marshal` string escaping for one character: quote and
backslash, the `\string n`, `\string r`, `\string t` specials, other control
characters as `\string u00xx`, the HTML characters as `\string u003c` /
`\string u003e` / `\string u0026`, U+2028/U+2029 as `\string u2028` /
`\string u2029`, all else verbatim. -/
def goEscapeChar (c : Char) : Str :=
  if c = '"' then ['\\', '"']
  else if c = '\\' then ['\\', '\\']
  else if c.toNat = 10 then ['\\', 'n']
  else if c.toNat = 13 then ['\\', 'r']
  else if c.toNat = 9 then ['\\', 't']
  else if c.toNat < 0x20 ∨ c = '<' ∨ c = '>' ∨ c = '&' then
    ['\\', 'u', '0', '0', hexLower (c.toNat / 16), hexLower (c.toNat % 16)]
  else if c.toNat = 0x2028 then ['\\', 'u', '2', '0', '2', '8']
  else if c.toNat = 0x2029 then ['\\', 'u', '2', '0', '2', '9']
  else [c]

/-- A Go-marshalled JSON string: quote, escaped body, quote. -/
def quoteStr (s : Str) : Str := '"' :: s.flatMap goEscapeChar ++ ['"']

/-- Decimal digits of a natural number, most significant first; the
fuel bounds the digit count, and `n + 1` always suffices. -/
def natDigitsAux : Nat → Nat → Str
  | 0, _ => []
  | fuel + 1, n =>
    if n < 10 then [Char.ofNat (48 + n)]
    else natDigitsAux fuel (n / 10) ++ [Char.ofNat (48 + n % 10)]

/-- Decimal digits of a natural number, most significant first. -/
def natDigits (n : Nat) : Str := natDigitsAux (n + 1) n

/-- Decimal rendering of an `int64`, as Go `encoding/json` emits it. -/
def intRepr (i : Int) : Str :=
  if i < 0 then '-' :: natDigits i.natAbs else natDigits i.toNat

/-- Model of `json.Marshal(token)`: the four fields in struct order with
their JSON tags, strings escaped as Go does. -/
def marshalToken (t : Token) : Str :=
  str "\x7b\"access_token\":" ++ quoteStr t.accessToken
    ++ str ",\"refresh_token\":" ++ quoteStr t.refreshToken
    ++ str ",\"token_type\":" ++ quoteStr t.tokenType
    ++ str ",\"expires_in\":" ++ intRepr t.expiresIn
    ++ str "\x7d"

/-! ## Token exchanges (`oauth.go` lines 108-143; `part_008` lines 63-97) -/

/-- An outgoing HTTP request as built by `ExchangeCode` and
`RefreshAccessToken` before handing it to the injected `HTTPClient`. -/
structure Request where
  method : Str
  url : Str
  contentType : Str
  body : Str

/-- What the injected `HTTPClient.Do` call produced: a transport error,
or a response with a status code and the outcome of `io.ReadAll` on its
body. -/
inductive HTTPResult where
  | transportError (msg : Str)
  | response (statusCode : Nat) (bodyRead : Except Str Str)

/-- The distinguishable failure cases of `ExchangeCode` and
`RefreshAccessToken`, one per `fmt.Errorf` site: `transport` wraps the
`Do` error, `readBody` wraps the `io.ReadAll` error, `status` carries the
non-200 status code, `parse` is the `json.Unmarshal` failure. -/
inductive ExchangeError where
  | transport (msg : Str)
  | readBody (msg : Str)
  | status (code : Nat)
  | parse
deriving DecidableEq

/-- The form request `ExchangeCode` POSTs (`oauth.go` lines 109-120):
`code`, `client_id`, `client_secret`, `redirect_uri`,
`grant_type=authorization_code`, URL-encoded. -/
def exchangeCodeRequest (cfg : Config) (code : Str) : Request :=
  { method := str "POST", url := cfg.tokenURL,
    contentType := str "application/x-www-form-urlencoded",
    body := Values.encode
      (Values.set (Values.set (Values.set (Values.set (Values.set []
        (str "code") code)
        (str "client_id") cfg.clientID)
        (str "client_secret") cfg.clientSecret)
        (str "redirect_uri") cfg.redirectURL)
        (str "grant_type") (str "authorization_code")) }

/-- Model of `Flow.ExchangeCode` (`oauth.go` lines 108-143) applied to the
`HTTPClient`'s answer: wrap transport errors, wrap body-read errors, fail
with the status code on any non-200 response, otherwise decode the JSON
body into a `Token` (a decode failure is a parse error). -/
def ExchangeCode (resp : HTTPResult) : Except ExchangeError Token :=
  match resp with
  | HTTPResult.transportError m => Except.error (ExchangeError.transport m)
  | HTTPResult.response status bodyRead =>
    match bodyRead with
    | Except.error m => Except.error (ExchangeError.readBody m)
    | Except.ok body =>
      if status ≠ 200 then Except.error (ExchangeError.status status)
      else
        match unmarshalToken body with
        | some t => Except.ok t
        | none => Except.error ExchangeError.parse

/-- The form request `RefreshAccessToken` POSTs (`part_008` lines 64-74):
`refresh_token`, `client_id`, `client_secret`,
`grant_type=refresh_token`, URL-encoded. -/
def refreshRequest (cfg : Config) (refreshToken : Str) : Request :=
  { method := str "POST", url := cfg.tokenURL,
    contentType := str "application/x-www-form-urlencoded",
    body := Values.encode
      (Values.set (Values.set (Values.set (Values.set []
        (str "refresh_token") refreshToken)
        (str "client_id") cfg.clientID)
        (str "client_secret") cfg.clientSecret)
        (str "grant_type") (str "refresh_token")) }

/-- Model of `Flow.RefreshAccessToken` (`part_008` lines 63-97) applied to
the `HTTPClient`'s answer; the decode logic is the duplicate of
`ExchangeCode`'s, as in the source. -/
def RefreshAccessToken (resp : HTTPResult) : Except ExchangeError Token :=
  match resp with
  | HTTPResult.transportError m => Except.error (ExchangeError.transport m)
  | HTTPResult.response status bodyRead =>
    match bodyRead with
    | Except.error m => Except.error (ExchangeError.readBody m)
    | Except.ok body =>
      if status ≠ 200 then Except.error (ExchangeError.status status)
      else
        match unmarshalToken body with
        | some t => Except.ok t
        | none => Except.error ExchangeError.parse

/-! ## Callback server (`oauth.go` lines 145-202) -/

/-- What the `/callback` handler signals on its channels: the code on
`codeChan`, or one of the two distinct errors on `errChan`. -/
inductive CallbackSignal where
  | code (c : Str)
  | invalidState
  | missingCode
deriving DecidableEq

/-- The failures `WaitForCallback` can return: the wrapped `net.Listen`
startup error, `ErrInvalidState`, the missing-code error, or the
timeout/cancellation error. -/
inductive CallbackError where
  | startup (msg : Str)
  | invalidState
  | missingCode
  | timeout
deriving DecidableEq

/-- Model of `r.URL.Query().Get(key)`: the first value for the key, or
the empty string when the key is absent. -/
def queryGet (q : List (Str × Str)) (k : Str) : Str :=
  match q.find? (fun p => p.1 = k) with
  | some p => p.2
  | none => []

/-- Model of the `/callback` request handler (`oauth.go` lines 158-177):
check the state first (400 and invalid-state on mismatch, without
reading the code), then require a non-empty code (400 and missing-code),
then answer 200 and signal the code.  Returns the HTTP status, the
response body, and the channel signal. -/
def handleCallback (expectedState : Str) (query : List (Str × Str)) :
    Nat × Str × CallbackSignal :=
  if queryGet query (str "state") ≠ expectedState then
    (400, str "Invalid state", CallbackSignal.invalidState)
  else
    let code := queryGet query (str "code")
    if code = [] then (400, str "Missing code", CallbackSignal.missingCode)
    else (200, str "Success! Close this window.", CallbackSignal.code code)

/-- Error text of `net.Listen("tcp", ":<port>")` when the port is already
bound, modelled from the Go standard library's `net.OpError` rendering;
the address string `":%d"` built at `oauth.go` line 179 embeds the port. -/
def netListenBusyMsg (port : Nat) : Str :=
  str "listen tcp :" ++ natDigits port ++ str ": bind: address already in use"

/-- Model of `CallbackServer.WaitForCallback` (`oauth.go` lines 153-202),
collapsed to its observable outcome.  `portBusy` is whether `net.Listen`
fails (checked first, before any waiting: the result then does not depend
on `request` at all); `request` is the query of the one request the
single-shot handler served before the deadline, or `none` when the
timeout fired first. -/
def WaitForCallback (port : Nat) (portBusy : Bool) (expectedState : Str)
    (request : Option (List (Str × Str))) : Except CallbackError Str :=
  if portBusy then
    Except.error (CallbackError.startup (str "failed to start server: " ++ netListenBusyMsg port))
  else
    match request with
    | none => Except.error CallbackError.timeout
    | some query =>
      match (handleCallback expectedState query).2.2 with
      | CallbackSignal.code c => Except.ok c
      | CallbackSignal.invalidState => Except.error CallbackError.invalidState
      | CallbackSignal.missingCode => Except.error CallbackError.missingCode

/-! ## Path handling (Go `path/filepath`, as used by `TokenStorage`) -/

/-- Model of `filepath.Base` on Unix: strip trailing slashes, keep what
follows the last remaining slash; "" gives ".", all-slashes gives "/". -/
def filepathBase (s : Str) : Str :=
  if s = [] then ['.']
  else
    let s1 := (s.reverse.dropWhile (fun c => c = '/')).reverse
    let s2 := (s1.reverse.takeWhile (fun c => c ≠ '/')).reverse
    if s2 = [] then ['/'] else s2

/-- Split on `/`, keeping empty segments (helper for `filepathClean`). -/
def splitSlash : Str → List Str
  | [] => [[]]
  | c :: cs =>
    if c = '/' then [] :: splitSlash cs
    else
      match splitSlash cs with
      | [] => [[c]]
      | s :: ss => (c :: s) :: ss

/-- One step of Go `filepath.Clean`'s segment processing: drop empty and
`.` segments; `..` pops the previous segment, is dropped at the root, and
is kept when a relative path starts with `..` segments.  The stack holds
the segments most recent first. -/
def cleanStep (rooted : Bool) (stack : List Str) (seg : Str) : List Str :=
  if seg = [] ∨ seg = ['.'] then stack
  else if seg = ['.', '.'] then
    match stack with
    | [] => if rooted then [] else [seg]
    | top :: rest => if top = ['.', '.'] then seg :: stack else rest
  else seg :: stack

/-- The cleaned form of a path: whether it is rooted, and its segments in
order. -/
def cleanParts (s : Str) : Bool × List Str :=
  let rooted := s.head? = some '/'
  (rooted, ((splitSlash s).foldl (cleanStep rooted) []).reverse)

/-- Render cleaned parts back to a string, as `filepath.Clean` does:
no segments gives "/" or ".", otherwise the segments joined by `/` with a
leading `/` when rooted. -/
def renderCleanParts (rooted : Bool) (segs : List Str) : Str :=
  if segs = [] then (if rooted then ['/'] else ['.'])
  else (if rooted then ['/'] else []) ++ List.intercalate ['/'] segs

/-- Model of `filepath.Clean` on Unix via segment processing. -/
def filepathClean (s : Str) : Str :=
  renderCleanParts (cleanParts s).1 (cleanParts s).2

/-- Model of `filepath.Join` for two elements: empty elements are
dropped, the rest joined with `/` and cleaned. -/
def filepathJoin (a b : Str) : Str :=
  if a = [] ∧ b = [] then []
  else if a = [] then filepathClean b
  else if b = [] then filepathClean a
  else filepathClean (a ++ '/' :: b)

/-! ## TokenStorage (`oauth.go` lines 204-244) -/

/-- A file on disk: readable with some content, or present but
unreadable. -/
inductive FileState where
  | readable (content : Str)
  | unreadable

/-- The filesystem, as the storage code observes it: an association of
paths to file states; absent paths do not exist. -/
abbrev FS := List (Str × FileState)

/-- Model of `os.WriteFile`: create or overwrite the file at `path`. -/
def fsWrite (fs : FS) (path : Str) (content : Str) : FS :=
  (path, FileState.readable content) :: fs.filter (fun p => p.1 ≠ path)

/-- The two ways `os.ReadFile` fails: the file does not exist
(`os.IsNotExist`), or any other I/O error. -/
inductive ReadErr where
  | notExist
  | other
deriving DecidableEq

/-- Model of `os.ReadFile`. -/
def osReadFile (fs : FS) (path : Str) : Except ReadErr Str :=
  match fs.find? (fun p => p.1 = path) with
  | none => Except.error ReadErr.notExist
  | some (_, FileState.readable c) => Except.ok c
  | some (_, FileState.unreadable) => Except.error ReadErr.other

/-- The token file path both `Save` and `Load` build
(`oauth.go` lines 223-224 and 229-230): the provider sanitized to its
base name, `_token.json` appended, joined under the storage root. -/
def tokenFilePath (dir provider : Str) : Str :=
  filepathJoin dir (filepathBase provider ++ str "_token.json")

/-- Model of `TokenStorage.Save` (`oauth.go` lines 212-225): marshal the
token and write it to the token file path.  (`os.MkdirAll` and the write
itself succeed in this model; their failures are wrapped errors the
claims do not touch.) -/
def TokenStorage.Save (dir provider : Str) (token : Token) (fs : FS) : FS :=
  fsWrite fs (tokenFilePath dir provider) (marshalToken token)

/-- The distinguishable failures of `TokenStorage.Load`: the dedicated
`ErrTokenNotFound`, the wrapped generic read error, and the wrapped
unmarshal error. -/
inductive LoadError where
  | notFound
  | readFailed
  | parseFailed
deriving DecidableEq

/-- Model of `TokenStorage.Load` (`oauth.go` lines 227-244): read the
token file; a missing file is `ErrTokenNotFound`, any other read error is
the generic wrapped error, an unparseable file is the unmarshal error. -/
def TokenStorage.Load (dir provider : Str) (fs : FS) : Except LoadError Token :=
  match osReadFile fs (tokenFilePath dir provider) with
  | Except.error ReadErr.notExist => Except.error LoadError.notFound
  | Except.error ReadErr.other => Except.error LoadError.readFailed
  | Except.ok data =>
    match unmarshalToken data with
    | none => Except.error LoadError.parseFailed
    | some t => Except.ok t

/-! ## Helper lemmas -/

theorem hexEncodeBytes_length (bs : List Nat) :
    (hexEncodeBytes bs).length = 2 * bs.length := by
  induction bs with
  | nil => rfl
  | cons b bs ih => simp [hexEncodeBytes] at ih ⊢; omega

theorem isUnreservedQueryChar_hexLower :
    ∀ n, n < 16 → isUnreservedQueryChar (hexLower n) = true := by decide

theorem queryEscape_of_all_unreserved (s : Str)
    (h : ∀ c ∈ s, isUnreservedQueryChar c = true) : queryEscape s = s := by
  induction s with
  | nil => rfl
  | cons c cs ih =>
    have hc := h c (List.mem_cons_self c cs)
    have ih2 := ih fun d hd => h d (List.mem_cons_of_mem _ hd)
    simp only [queryEscape] at ih2 ⊢
    simp [hc, ih2]

theorem queryEscape_hexEncodeBytes (bs : List Nat) :
    queryEscape (hexEncodeBytes bs) = hexEncodeBytes bs := by
  apply queryEscape_of_all_unreserved
  intro c hc
  simp [hexEncodeBytes] at hc
  obtain ⟨b, hb, h⟩ := hc
  rcases h with h | h <;> rw [h] <;>
    exact isUnreservedQueryChar_hexLower _ (Nat.mod_lt _ (by norm_num))

theorem queryEscape_access_type :
    queryEscape ['a', 'c', 'c', 'e', 's', 's', '_', 't', 'y', 'p', 'e'] =
      ['a', 'c', 'c', 'e', 's', 's', '_', 't', 'y', 'p', 'e'] := by decide

theorem queryEscape_offline :
    queryEscape ['o', 'f', 'f', 'l', 'i', 'n', 'e'] =
      ['o', 'f', 'f', 'l', 'i', 'n', 'e'] := by decide

theorem queryEscape_client_id :
    queryEscape ['c', 'l', 'i', 'e', 'n', 't', '_', 'i', 'd'] =
      ['c', 'l', 'i', 'e', 'n', 't', '_', 'i', 'd'] := by decide

theorem queryEscape_redirect_uri :
    queryEscape ['r', 'e', 'd', 'i', 'r', 'e', 'c', 't', '_', 'u', 'r', 'i'] =
      ['r', 'e', 'd', 'i', 'r', 'e', 'c', 't', '_', 'u', 'r', 'i'] := by decide

theorem queryEscape_response_type :
    queryEscape ['r', 'e', 's', 'p', 'o', 'n', 's', 'e', '_', 't', 'y', 'p', 'e'] =
      ['r', 'e', 's', 'p', 'o', 'n', 's', 'e', '_', 't', 'y', 'p', 'e'] := by decide

theorem queryEscape_code :
    queryEscape ['c', 'o', 'd', 'e'] = ['c', 'o', 'd', 'e'] := by decide

theorem queryEscape_scope :
    queryEscape ['s', 'c', 'o', 'p', 'e'] = ['s', 'c', 'o', 'p', 'e'] := by decide

theorem queryEscape_state :
    queryEscape ['s', 't', 'a', 't', 'e'] = ['s', 't', 'a', 't', 'e'] := by decide

theorem queryEscape_client_secret :
    queryEscape ['c', 'l', 'i', 'e', 'n', 't', '_', 's', 'e', 'c', 'r', 'e', 't'] =
      ['c', 'l', 'i', 'e', 'n', 't', '_', 's', 'e', 'c', 'r', 'e', 't'] := by decide

theorem queryEscape_grant_type :
    queryEscape ['g', 'r', 'a', 'n', 't', '_', 't', 'y', 'p', 'e'] =
      ['g', 'r', 'a', 'n', 't', '_', 't', 'y', 'p', 'e'] := by decide

theorem queryEscape_refresh_token :
    queryEscape ['r', 'e', 'f', 'r', 'e', 's', 'h', '_', 't', 'o', 'k', 'e', 'n'] =
      ['r', 'e', 'f', 'r', 'e', 's', 'h', '_', 't', 'o', 'k', 'e', 'n'] := by decide

/-! ## Claim C9 -/

/-- C9: `Config.Validate` returns nil exactly when the client ID, the
client secret and the redirect URL are non-empty and the scope list is
non-empty; on failure the returned message names a field that is indeed
missing (the first missing one, in source order).  The function is pure,
so it has no side effects by construction. -/
theorem validate_spec (c : Config) :
    (c.Validate = none ↔
      c.clientID ≠ [] ∧ c.clientSecret ≠ [] ∧ c.redirectURL ≠ [] ∧ c.scopes ≠ []) ∧
    (∀ e, c.Validate = some e →
      (e = str "client ID is required" ∧ c.clientID = []) ∨
      (e = str "client secret is required" ∧ c.clientSecret = []) ∨
      (e = str "redirect URL is required" ∧ c.redirectURL = []) ∨
      (e = str "at least one scope is required" ∧ c.scopes = [])) := by
  unfold Config.Validate
  constructor
  · split_ifs with h1 h2 h3 h4 <;> simp_all [List.length_eq_zero]
  · intro e
    split_ifs with h1 h2 h3 h4 <;> simp_all [List.length_eq_zero]

/-- Witness for `validate_spec` at a config whose client ID is empty. -/
theorem validate_spec_witness :
    (str "client ID is required" = str "client ID is required" ∧ ([] : Str) = []) ∨
    (str "client ID is required" = str "client secret is required" ∧ ([] : Str) = []) ∨
    (str "client ID is required" = str "redirect URL is required" ∧ ([] : Str) = []) ∨
    (str "client ID is required" = str "at least one scope is required" ∧
      ([] : List Str) = []) :=
  (validate_spec ⟨[], [], [], [], [], []⟩).2 _ rfl

/-! ## Claim C2 -/

/-- C2: `GenerateAuthURL`, fed the 16 bytes that `crypto/rand.Read`
produced, returns the hex encoding of those bytes as the state token —
non-empty, exactly 32 characters — and a URL equal to the authorization
endpoint followed by `?` and the sorted query string carrying
`access_type=offline`, the escaped client id, the escaped redirect URL,
`response_type=code`, the escaped space-joined scopes, and that exact
state token.  The function is a pure construction: no network call. -/
theorem generateAuthURL_spec (cfg : Config) (stateBytes : List Nat)
    (hlen : stateBytes.length = 16) :
    (GenerateAuthURL cfg stateBytes).2 = hexEncodeBytes stateBytes ∧
    (GenerateAuthURL cfg stateBytes).2 ≠ [] ∧
    (GenerateAuthURL cfg stateBytes).2.length = 32 ∧
    (GenerateAuthURL cfg stateBytes).1 =
      cfg.authURL ++ str "?access_type=offline&client_id=" ++ queryEscape cfg.clientID
        ++ str "&redirect_uri=" ++ queryEscape cfg.redirectURL
        ++ str "&response_type=code&scope="
        ++ queryEscape (List.intercalate [' '] cfg.scopes)
        ++ str "&state=" ++ (GenerateAuthURL cfg stateBytes).2 := by
  refine ⟨rfl, ?_, ?_, ?_⟩
  · show hexEncodeBytes stateBytes ≠ []
    have := hexEncodeBytes_length stateBytes
    intro h
    rw [h, hlen] at this
    simp at this
  · show (hexEncodeBytes stateBytes).length = 32
    rw [hexEncodeBytes_length, hlen]
  · simp [GenerateAuthURL, Values.encode, Values.set, sortByKey, insertByKey,
      strLt, List.intercalate, str, queryEscape_hexEncodeBytes,
      queryEscape_access_type, queryEscape_offline, queryEscape_client_id,
      queryEscape_redirect_uri, queryEscape_response_type, queryEscape_code,
      queryEscape_scope, queryEscape_state]

/-! ## Claim C1 -/

/-- C1: the callback handler checks the state first — on mismatch it
answers 400 with the invalid-state signal, without the code ever being
read (the outcome is the same whatever the `code` parameter holds), and
`WaitForCallback` returns `ErrInvalidState`; with a matching state and an
empty code it answers 400 with the distinct missing-code failure;
otherwise it answers 200 and `WaitForCallback` returns exactly the code
with no error. -/
theorem callback_handler_spec (expectedState : Str) (query : List (Str × Str))
    (port : Nat) :
    (queryGet query (str "state") ≠ expectedState →
      handleCallback expectedState query =
        (400, str "Invalid state", CallbackSignal.invalidState) ∧
      WaitForCallback port false expectedState (some query) =
        Except.error CallbackError.invalidState) ∧
    (queryGet query (str "state") = expectedState →
      queryGet query (str "code") = [] →
      handleCallback expectedState query =
        (400, str "Missing code", CallbackSignal.missingCode) ∧
      WaitForCallback port false expectedState (some query) =
        Except.error CallbackError.missingCode) ∧
    (queryGet query (str "state") = expectedState →
      queryGet query (str "code") ≠ [] →
      (handleCallback expectedState query).1 = 200 ∧
      WaitForCallback port false expectedState (some query) =
        Except.ok (queryGet query (str "code"))) ∧
    CallbackError.invalidState ≠ CallbackError.missingCode := by
  refine ⟨?_, ?_, ?_, by decide⟩
  · intro h
    simp [handleCallback, WaitForCallback, h]
  · intro h hc
    simp [handleCallback, WaitForCallback, h, hc]
  · intro h hc
    simp [handleCallback, WaitForCallback, h, hc]

/-- Witness for `callback_handler_spec`: state `"abc123"`, code
`"auth-xyz"` against expected state `"abc123"` yields 200 and the code;
and with expected state `"other"` the mismatch branch fires. -/
theorem callback_handler_spec_witness :
    ((handleCallback (str "abc123")
        [(str "state", str "abc123"), (str "code", str "auth-xyz")]).1 = 200 ∧
      WaitForCallback 8080 false (str "abc123")
        (some [(str "state", str "abc123"), (str "code", str "auth-xyz")]) =
        Except.ok (queryGet [(str "state", str "abc123"), (str "code", str "auth-xyz")]
          (str "code"))) ∧
    (handleCallback (str "other")
        [(str "state", str "abc123"), (str "code", str "auth-xyz")] =
        (400, str "Invalid state", CallbackSignal.invalidState) ∧
      WaitForCallback 8080 false (str "other")
        (some [(str "state", str "abc123"), (str "code", str "auth-xyz")]) =
        Except.error CallbackError.invalidState) :=
  ⟨(callback_handler_spec (str "abc123") _ 8080).2.2.1 (by decide) (by decide),
   (callback_handler_spec (str "other") _ 8080).1 (by decide)⟩

/-! ## Claim C8 -/

/-- C8: when the configured port is already bound, `WaitForCallback`
fails with the wrapped startup error whose message embeds the decimal
port number, and it does so before any waiting: the outcome is the same
startup error for every possible request/timeout behaviour. -/
theorem waitForCallback_portBusy_spec (port : Nat) (expectedState : Str)
    (request : Option (List (Str × Str))) :
    WaitForCallback port true expectedState request =
      Except.error (CallbackError.startup
        (str "failed to start server: " ++ netListenBusyMsg port)) ∧
    natDigits port <:+: (str "failed to start server: " ++ netListenBusyMsg port) := by
  refine ⟨rfl, ?_⟩
  refine ⟨str "failed to start server: " ++ str "listen tcp :",
          str ": bind: address already in use", ?_⟩
  simp [netListenBusyMsg]

/-! ## Claim C4 -/

/-- C4: `ExchangeCode` returns a token exactly when the response status
is 200 and the body decodes; any non-200 status yields the failure
carrying that status code (hence no token); a transport failure yields
the wrapped transport error; a 200 response with an undecodable body
yields the parse error. -/
theorem exchangeCode_spec (status : Nat) (body : Str) (m : Str) :
    (∀ t, ExchangeCode (HTTPResult.response status (Except.ok body)) = Except.ok t ↔
      (status = 200 ∧ unmarshalToken body = some t)) ∧
    (status ≠ 200 → ExchangeCode (HTTPResult.response status (Except.ok body)) =
      Except.error (ExchangeError.status status)) ∧
    ExchangeCode (HTTPResult.transportError m) =
      Except.error (ExchangeError.transport m) ∧
    (status = 200 → unmarshalToken body = none →
      ExchangeCode (HTTPResult.response status (Except.ok body)) =
        Except.error ExchangeError.parse) := by
  refine ⟨?_, ?_, rfl, ?_⟩
  · intro t
    by_cases h : status = 200
    · subst h
      cases hu : unmarshalToken body <;> simp [ExchangeCode, hu]
    · simp [ExchangeCode, h]
  · intro h
    simp [ExchangeCode, h]
  · intro h hu
    subst h
    simp [ExchangeCode, hu]

/-- Witness for `exchangeCode_spec`: a 400 answer yields the failure
carrying status 400 and no token; a transport error is wrapped. -/
theorem exchangeCode_spec_witness :
    ExchangeCode (HTTPResult.response 400 (Except.ok (str "\x7b\x7d"))) =
      Except.error (ExchangeError.status 400) ∧
    ExchangeCode (HTTPResult.transportError (str "dial tcp: network is unreachable")) =
      Except.error (ExchangeError.transport (str "dial tcp: network is unreachable")) :=
  ⟨(exchangeCode_spec 400 (str "\x7b\x7d") []).2.1 (by decide),
   (exchangeCode_spec 400 [] (str "dial tcp: network is unreachable")).2.2.1⟩

/-! ## Claim C10 -/

/-- C10: neither exchange validates the decoded token's contents: any
200 response whose body decodes — in particular the empty object, which
decodes to the all-zero token — is returned without error. -/
theorem exchange_no_content_validation :
    ExchangeCode (HTTPResult.response 200 (Except.ok (str "\x7b\x7d"))) =
      Except.ok zeroToken ∧
    RefreshAccessToken (HTTPResult.response 200 (Except.ok (str "\x7b\x7d"))) =
      Except.ok zeroToken ∧
    zeroToken = { accessToken := [], refreshToken := [], tokenType := [], expiresIn := 0 } ∧
    (∀ body t, unmarshalToken body = some t →
      ExchangeCode (HTTPResult.response 200 (Except.ok body)) = Except.ok t ∧
      RefreshAccessToken (HTTPResult.response 200 (Except.ok body)) = Except.ok t) := by
  refine ⟨rfl, rfl, rfl, ?_⟩
  intro body t hu
  constructor <;> simp [ExchangeCode, RefreshAccessToken, hu]

/-- Witness for `exchange_no_content_validation` at the empty-object
body. -/
theorem exchange_no_content_validation_witness :
    ExchangeCode (HTTPResult.response 200 (Except.ok (str "\x7b\x7d"))) =
      Except.ok zeroToken ∧
    RefreshAccessToken (HTTPResult.response 200 (Except.ok (str "\x7b\x7d"))) =
      Except.ok zeroToken :=
  exchange_no_content_validation.2.2.2 (str "\x7b\x7d") zeroToken (by decide)

/-! ## Claim C5 -/

/-- C5: `RefreshAccessToken` POSTs the URL-encoded form
`refresh_token`, `client_id`, `client_secret`,
`grant_type=refresh_token` to the token endpoint, and decodes the answer
with exactly `ExchangeCode`'s contract; a 200 answer of
`access_token "tok1"`, `token_type "Bearer"`, `expires_in 3600` yields
that token with an empty refresh-token field and no error. -/
theorem refreshAccessToken_spec (cfg : Config) (rt : Str) :
    (refreshRequest cfg rt).method = str "POST" ∧
    (refreshRequest cfg rt).url = cfg.tokenURL ∧
    (refreshRequest cfg rt).contentType = str "application/x-www-form-urlencoded" ∧
    (refreshRequest cfg rt).body =
      str "client_id=" ++ queryEscape cfg.clientID
        ++ str "&client_secret=" ++ queryEscape cfg.clientSecret
        ++ str "&grant_type=refresh_token&refresh_token=" ++ queryEscape rt ∧
    (∀ resp, RefreshAccessToken resp = ExchangeCode resp) ∧
    RefreshAccessToken (HTTPResult.response 200 (Except.ok
        (str "\x7b\"access_token\":\"tok1\",\"token_type\":\"Bearer\",\"expires_in\":3600\x7d"))) =
      Except.ok { accessToken := str "tok1", refreshToken := [],
                  tokenType := str "Bearer", expiresIn := 3600 } := by
  refine ⟨rfl, rfl, rfl, ?_, ?_, ?_⟩
  · simp [refreshRequest, Values.encode, Values.set, sortByKey, insertByKey,
      strLt, List.intercalate, str, queryEscape_client_id,
      queryEscape_client_secret, queryEscape_grant_type, queryEscape_refresh_token]
  · intro resp
    cases resp with
    | transportError m => rfl
    | response status bodyRead => cases bodyRead <;> rfl
  · rfl

/-! ## Path lemmas for claim C3 -/

theorem splitSlash_ne_nil (s : Str) : splitSlash s ≠ [] := by
  induction s with
  | nil => simp [splitSlash]
  | cons c cs ih =>
    simp only [splitSlash]
    split
    · simp
    · cases h : splitSlash cs with
      | nil => exact absurd h ih
      | cons a as => simp

theorem splitSlash_no_slash (s : Str) (h : '/' ∉ s) : splitSlash s = [s] := by
  induction s with
  | nil => rfl
  | cons c cs ih =>
    simp only [splitSlash]
    have hc : ¬ c = '/' := fun hh => h (hh ▸ List.mem_cons_self c cs)
    rw [if_neg hc, ih (fun hm => h (List.mem_cons_of_mem _ hm))]

theorem splitSlash_append_slash (xs ys : Str) :
    splitSlash (xs ++ '/' :: ys) = splitSlash xs ++ splitSlash ys := by
  induction xs with
  | nil => simp [splitSlash]
  | cons c cs ih =>
    simp only [List.cons_append, splitSlash, List.append_eq]
    split
    · simp [ih]
    · rw [ih]
      cases h : splitSlash cs with
      | nil => exact absurd h (splitSlash_ne_nil cs)
      | cons a as => simp

theorem cleanStep_plain (rooted : Bool) (stack : List Str) (f : Str)
    (h1 : f ≠ []) (h2 : f ≠ ['.']) (h3 : f ≠ ['.', '.']) :
    cleanStep rooted stack f = f :: stack := by
  simp [cleanStep, h1, h2, h3]

theorem cleanParts_append_plainSeg (dir f : Str) (hdir : dir ≠ [])
    (hf : '/' ∉ f) (h1 : f ≠ []) (h2 : f ≠ ['.']) (h3 : f ≠ ['.', '.']) :
    cleanParts (dir ++ '/' :: f) = ((cleanParts dir).1, (cleanParts dir).2 ++ [f]) := by
  obtain ⟨d, ds, rfl⟩ : ∃ d ds, dir = d :: ds := by
    cases dir with
    | nil => exact absurd rfl hdir
    | cons d ds => exact ⟨d, ds, rfl⟩
  simp only [cleanParts]
  rw [splitSlash_append_slash, splitSlash_no_slash f hf]
  simp only [List.foldl_append, List.foldl_cons, List.foldl_nil, List.cons_append,
    List.head?_cons, List.reverse_cons]
  rw [cleanStep_plain _ _ _ h1 h2 h3]
  simp

theorem cleanParts_append_slashSeg (dir f : Str) (hdir : dir ≠ [])
    (hf : '/' ∉ f) (h1 : f ≠ []) (h2 : f ≠ ['.']) (h3 : f ≠ ['.', '.']) :
    cleanParts (dir ++ '/' :: '/' :: f) = ((cleanParts dir).1, (cleanParts dir).2 ++ [f]) := by
  obtain ⟨d, ds, rfl⟩ : ∃ d ds, dir = d :: ds := by
    cases dir with
    | nil => exact absurd rfl hdir
    | cons d ds => exact ⟨d, ds, rfl⟩
  simp only [cleanParts]
  rw [splitSlash_append_slash]
  have hsplit : splitSlash ('/' :: f) = [[], f] := by
    simp [splitSlash, splitSlash_no_slash f hf]
  rw [hsplit]
  simp only [List.foldl_append, List.foldl_cons, List.foldl_nil, List.cons_append,
    List.head?_cons, List.reverse_cons]
  have hempty : ∀ r st, cleanStep r st [] = st := by intro r st; simp [cleanStep]
  rw [hempty, cleanStep_plain _ _ _ h1 h2 h3]
  simp

theorem filepathBase_ne_nil (s : Str) : filepathBase s ≠ [] := by
  simp only [filepathBase]
  split
  · simp
  · split <;> simp_all

theorem filepathBase_no_slash (s : Str) :
    filepathBase s = ['/'] ∨ '/' ∉ filepathBase s := by
  simp only [filepathBase]
  split
  · right; simp
  · split
    · left; rfl
    · right
      intro hm
      have := List.mem_takeWhile_imp (List.mem_reverse.mp hm)
      simp at this

/-! ## Claim C3 -/

/-- C3: for every provider name (including ones with path separators or
parent-directory segments) and every non-empty storage root, `Save`
writes exactly one file, whose path renders as the root's cleaned
segments extended by a single ordinary file name — the sanitized base
name of the provider followed by `_token.json` — so the write can never
land outside the storage root.  (When the provider is all slashes its
base is "/" and the file name degenerates to `_token.json`, still inside
the root.) -/
theorem save_path_spec (dir provider : Str) (fs : FS) (token : Token)
    (hdir : dir ≠ []) :
    ∃ fname,
      fname ≠ [] ∧ fname ≠ str "." ∧ fname ≠ str ".." ∧ '/' ∉ fname ∧
      (fname = filepathBase provider ++ str "_token.json" ∨
        (filepathBase provider = ['/'] ∧ fname = str "_token.json")) ∧
      tokenFilePath dir provider =
        renderCleanParts (cleanParts dir).1 ((cleanParts dir).2 ++ [fname]) ∧
      TokenStorage.Save dir provider token fs =
        (tokenFilePath dir provider, FileState.readable (marshalToken token)) ::
          fs.filter (fun p => p.1 ≠ tokenFilePath dir provider) := by
  have hw : ('/' : Char) ∉ str "_token.json" := by decide
  have hbase := filepathBase_no_slash provider
  have hjoin : tokenFilePath dir provider =
      filepathClean (dir ++ '/' :: (filepathBase provider ++ str "_token.json")) := by
    have hne : filepathBase provider ++ str "_token.json" ≠ [] := by
      simp [str]
    simp [tokenFilePath, filepathJoin, hdir, hne]
  rcases hbase with hb | hb
  · refine ⟨str "_token.json", by decide, by decide, by decide, hw, Or.inr ⟨hb, rfl⟩, ?_, rfl⟩
    rw [hjoin, hb]
    rw [show (['/'] ++ str "_token.json" : Str) = '/' :: str "_token.json" from rfl]
    rw [filepathClean,
      cleanParts_append_slashSeg dir (str "_token.json") hdir hw (by decide) (by decide)
        (by decide)]
  · refine ⟨filepathBase provider ++ str "_token.json", ?_, ?_, ?_, ?_, Or.inl rfl, ?_, rfl⟩
    · simp [str]
    · intro hh
      apply_fun List.length at hh
      simp [str] at hh
    · intro hh
      apply_fun List.length at hh
      simp [str] at hh
    · intro hm
      rcases List.mem_append.mp hm with hm | hm
      · exact hb hm
      · exact hw hm
    · rw [hjoin, filepathClean,
        cleanParts_append_plainSeg dir _ hdir ?_ ?_ ?_ ?_]
      · intro hm
        rcases List.mem_append.mp hm with hm | hm
        · exact hb hm
        · exact hw hm
      · simp [str]
      · intro hh
        apply_fun List.length at hh
        simp [str] at hh
      · intro hh
        apply_fun List.length at hh
        simp [str] at hh

/-- Witness for `save_path_spec`: the traversal attempt
`"../../etc/passwd"` under root `"tokens"` writes only to
`tokens/passwd_token.json`. -/
theorem save_path_spec_witness :
    ∃ fname,
      fname ≠ [] ∧ fname ≠ str "." ∧ fname ≠ str ".." ∧ '/' ∉ fname ∧
      (fname = filepathBase (str "../../etc/passwd") ++ str "_token.json" ∨
        (filepathBase (str "../../etc/passwd") = ['/'] ∧ fname = str "_token.json")) ∧
      tokenFilePath (str "tokens") (str "../../etc/passwd") =
        renderCleanParts (cleanParts (str "tokens")).1
          ((cleanParts (str "tokens")).2 ++ [fname]) ∧
      TokenStorage.Save (str "tokens") (str "../../etc/passwd") zeroToken [] =
        (tokenFilePath (str "tokens") (str "../../etc/passwd"),
          FileState.readable (marshalToken zeroToken)) ::
          List.filter (fun p => p.1 ≠ tokenFilePath (str "tokens") (str "../../etc/passwd")) [] :=
  save_path_spec (str "tokens") (str "../../etc/passwd") [] zeroToken (by decide)

/-! ## Claim C7 -/

/-- C7: `Load` for a provider whose token file does not exist returns the
dedicated not-found failure (`ErrTokenNotFound`); a file that exists but
cannot be read, or that cannot be parsed, yields a generic failure
distinct from not-found. -/
theorem load_notFound_spec (dir provider : Str) (fs : FS) :
    (fs.find? (fun p => p.1 = tokenFilePath dir provider) = none →
      TokenStorage.Load dir provider fs = Except.error LoadError.notFound) ∧
    (∀ pth, fs.find? (fun p => p.1 = tokenFilePath dir provider) =
        some (pth, FileState.unreadable) →
      TokenStorage.Load dir provider fs = Except.error LoadError.readFailed ∧
      LoadError.readFailed ≠ LoadError.notFound) ∧
    (∀ pth c, fs.find? (fun p => p.1 = tokenFilePath dir provider) =
        some (pth, FileState.readable c) →
      unmarshalToken c = none →
      TokenStorage.Load dir provider fs = Except.error LoadError.parseFailed ∧
      LoadError.parseFailed ≠ LoadError.notFound) := by
  refine ⟨?_, ?_, ?_⟩
  · intro h
    simp [TokenStorage.Load, osReadFile, h]
  · intro pth h
    simp [TokenStorage.Load, osReadFile, h]
  · intro pth c h hu
    simp [TokenStorage.Load, osReadFile, h, hu]

/-- Witness for `load_notFound_spec`: the empty filesystem (provider
never saved) yields `ErrTokenNotFound`. -/
theorem load_notFound_spec_witness :
    TokenStorage.Load (str "tokens") (str "youtube") [] =
      Except.error LoadError.notFound :=
  (load_notFound_spec (str "tokens") (str "youtube") []).1 rfl

/-- Witness for `generateAuthURL_spec` at a concrete config and the byte
sequence `0, 1, …, 15`. -/
theorem generateAuthURL_spec_witness :
    (GenerateAuthURL ⟨str "id", str "secret", str "https://auth.example",
        str "https://token.example", str "http://localhost:8080/callback",
        [str "read"]⟩ (List.range 16)).2 = hexEncodeBytes (List.range 16) ∧
    (GenerateAuthURL ⟨str "id", str "secret", str "https://auth.example",
        str "https://token.example", str "http://localhost:8080/callback",
        [str "read"]⟩ (List.range 16)).2 ≠ [] ∧
    (GenerateAuthURL ⟨str "id", str "secret", str "https://auth.example",
        str "https://token.example", str "http://localhost:8080/callback",
        [str "read"]⟩ (List.range 16)).2.length = 32 ∧
    (GenerateAuthURL ⟨str "id", str "secret", str "https://auth.example",
        str "https://token.example", str "http://localhost:8080/callback",
        [str "read"]⟩ (List.range 16)).1 =
      str "https://auth.example" ++ str "?access_type=offline&client_id="
        ++ queryEscape (str "id")
        ++ str "&redirect_uri="
        ++ queryEscape (str "http://localhost:8080/callback")
        ++ str "&response_type=code&scope="
        ++ queryEscape (List.intercalate [' '] [str "read"])
        ++ str "&state="
        ++ (GenerateAuthURL ⟨str "id", str "secret", str "https://auth.example",
              str "https://token.example", str "http://localhost:8080/callback",
              [str "read"]⟩ (List.range 16)).2 :=
  generateAuthURL_spec _ (List.range 16) (by decide)

/-! ## JSON roundtrip lemmas for claim C6 -/

theorem char_ofNat_eq_of_toNat (c : Char) (n : Nat) (h : c.toNat = n) :
    Char.ofNat n = c := h ▸ Char.ofNat_toNat c

theorem hexVal_hexLower : ∀ m, m < 16 → hexVal (hexLower m) = some m := by decide

theorem digit_toNat : ∀ d, d < 10 → (Char.ofNat (48 + d)).toNat = 48 + d := by decide

theorem digit_isDigit : ∀ d, d < 10 → (Char.ofNat (48 + d)).isDigit = true := by decide

theorem natDigitsAux_mem (f : Nat) :
    ∀ n, n < f → ∀ c ∈ natDigitsAux f n, c.isDigit = true := by
  induction f with
  | zero => intro n h; omega
  | succ f ih =>
    intro n _ c hc
    simp only [natDigitsAux] at hc
    split at hc
    · simp at hc
      exact hc ▸ digit_isDigit n (by omega)
    · rcases List.mem_append.mp hc with h | h
      · exact ih (n / 10) (by omega) c h
      · simp at h
        exact h ▸ digit_isDigit (n % 10) (by omega)

theorem natDigitsAux_ne_nil (f : Nat) : ∀ n, n < f → natDigitsAux f n ≠ [] := by
  induction f with
  | zero => intro n h; omega
  | succ f _ =>
    intro n _
    simp only [natDigitsAux]
    split <;> simp

theorem digitsToNat_append_one (ds : Str) (d : Char) :
    digitsToNat (ds ++ [d]) = 10 * digitsToNat ds + (d.toNat - 48) := by
  simp [digitsToNat, List.foldl_append]

theorem natDigitsAux_val (f : Nat) :
    ∀ n, n < f → digitsToNat (natDigitsAux f n) = n := by
  induction f with
  | zero => intro n h; omega
  | succ f ih =>
    intro n hn
    simp only [natDigitsAux]
    split
    · simp [digitsToNat, digit_toNat n (by omega)]
    · rw [digitsToNat_append_one, ih (n / 10) (by omega), digit_toNat (n % 10) (by omega)]
      omega

theorem natDigitsAux_head (f : Nat) :
    ∀ n, n < f → n ≠ 0 → (natDigitsAux f n).head? ≠ some '0' := by
  induction f with
  | zero => intro n h; omega
  | succ f ih =>
    intro n hn hz
    simp only [natDigitsAux]
    split
    · intro hh
      simp at hh
      have := digit_toNat n (by omega)
      rw [hh] at this
      simp at this
      omega
    · rw [List.head?_append_of_ne_nil _ (natDigitsAux_ne_nil f (n / 10) (by omega))]
      exact ih (n / 10) (by omega) (by omega)

theorem span_digits (ds : Str) (h : Char) (t : Str)
    (hds : ∀ c ∈ ds, Char.isDigit c = true) (hh : Char.isDigit h = false) :
    (ds ++ h :: t).span Char.isDigit = (ds, h :: t) := by
  induction ds with
  | nil => simp [List.span_eq_take_drop, hh]
  | cons d ds ih =>
    have hd := hds d (List.mem_cons_self d ds)
    have := ih fun c hc => hds c (List.mem_cons_of_mem _ hc)
    simp [List.span_eq_take_drop, hd, hh] at this ⊢
    exact this

theorem natDigits_ne_nil (n : Nat) : natDigits n ≠ [] :=
  natDigitsAux_ne_nil (n + 1) n (by omega)

theorem parseFracExp_brace (r : Str) : parseFracExp ('}' :: r) = some (true, '}' :: r) := by
  simp [parseFracExp]

theorem span_natDigits (n : Nat) (r : Str) :
    (natDigits n ++ '}' :: r).span Char.isDigit = (natDigits n, '}' :: r) :=
  span_digits _ _ _ (natDigitsAux_mem (n + 1) n (by omega)) (by decide)

theorem parseNumber_natDigits (n : Nat) (r : Str) :
    parseNumber (natDigits n ++ '}' :: r) = some ((n : Int), true, '}' :: r) := by
  obtain ⟨d, ds, hd⟩ : ∃ d ds, natDigits n = d :: ds := by
    cases h : natDigits n with
    | nil => exact absurd h (natDigits_ne_nil n)
    | cons d ds => exact ⟨d, ds, rfl⟩
  have hmem := natDigitsAux_mem (n + 1) n (by omega)
  have hdig : Char.isDigit d = true := hmem d (by rw [natDigits] at hd; rw [hd]; simp)
  have hne : ¬ d = '-' := by
    intro hh
    rw [hh] at hdig
    simp [Char.isDigit] at hdig
  have hspan := span_natDigits n r
  rw [hd, List.span_eq_take_drop, List.cons_append, Prod.mk.injEq] at hspan
  obtain ⟨htake, hdrop⟩ := hspan
  have hlead : 1 < ((d :: ds : Str)).length → ¬ ((d :: ds : Str)).head? = some '0' := by
    intro hlen hhead
    simp at hhead
    by_cases hz : n = 0
    · rw [natDigits, hz] at hd
      simp [natDigitsAux] at hd
      rcases hd with ⟨h1, h2⟩
      rw [h2] at hlen
      simp at hlen
    · exact natDigitsAux_head (n + 1) n (by omega) hz
        (by rw [natDigits] at hd; rw [hd]; simp [hhead])
  have hval : digitsToNat (d :: ds) = n := by
    rw [← hd, natDigits]
    exact natDigitsAux_val (n + 1) n (by omega)
  simp only [parseNumber, hd, List.cons_append, if_neg hne]
  simp [htake, hdrop, hlead, hval, parseFracExp_brace, hdig]
  intro hlen hdd
  exact hlead (by simp; omega) (by simp [hdd])

theorem parseNumber_intRepr (e : Int) (r : Str) :
    parseNumber (intRepr e ++ '}' :: r) = some (e, true, '}' :: r) := by
  by_cases he : e < 0
  · simp only [intRepr, if_pos he, List.cons_append]
    obtain ⟨d, ds, hd⟩ : ∃ d ds, natDigits e.natAbs = d :: ds := by
      cases h : natDigits e.natAbs with
      | nil => exact absurd h (natDigits_ne_nil e.natAbs)
      | cons d ds => exact ⟨d, ds, rfl⟩
    have hspan := span_natDigits e.natAbs r
    rw [hd, List.span_eq_take_drop, List.cons_append, Prod.mk.injEq] at hspan
    obtain ⟨htake, hdrop⟩ := hspan
    have hz : e.natAbs ≠ 0 := by omega
    have hlead : 1 < ((d :: ds : Str)).length → ¬ ((d :: ds : Str)).head? = some '0' := by
      intro _ hhead
      exact natDigitsAux_head (e.natAbs + 1) e.natAbs (by omega) hz
        (by rw [natDigits] at hd; rw [hd]; exact hhead)
    have hval : digitsToNat (d :: ds) = e.natAbs := by
      rw [← hd, natDigits]
      exact natDigitsAux_val (e.natAbs + 1) e.natAbs (by omega)
    simp only [parseNumber, hd, List.cons_append]
    simp [htake, hdrop, hval, parseFracExp_brace,
      natDigitsAux_mem (e.natAbs + 1) e.natAbs (by omega) d
        (by rw [natDigits] at hd; rw [hd]; simp)]
    constructor
    · intro hlen hdd
      exact hlead (by simp; omega) (by simp [hdd])
    · rw [abs_of_neg he, neg_neg]
  · simp only [intRepr, if_neg he]
    rw [parseNumber_natDigits]
    congr 2
    omega

theorem parseStringBody_escape (f : Nat) (c : Char) (tail : Str) :
    parseStringBody (f + 1) (goEscapeChar c ++ tail) =
      (parseStringBody f tail).map fun p => (c :: p.1, p.2) := by
  by_cases h1 : c = '"'
  · subst h1
    simp [goEscapeChar, parseStringBody, unescapeChar]
  by_cases h2 : c = '\\'
  · subst h2
    simp [goEscapeChar, parseStringBody, unescapeChar]
  by_cases h3 : c.toNat = 10
  · simp only [goEscapeChar, if_neg h1, if_neg h2, if_pos h3, List.cons_append,
      List.nil_append]
    simp [parseStringBody, unescapeChar]
    rw [char_ofNat_eq_of_toNat c 10 h3]
  by_cases h4 : c.toNat = 13
  · simp only [goEscapeChar, if_neg h1, if_neg h2, if_neg h3, if_pos h4, List.cons_append,
      List.nil_append]
    simp [parseStringBody, unescapeChar]
    rw [char_ofNat_eq_of_toNat c 13 h4]
  by_cases h5 : c.toNat = 9
  · simp only [goEscapeChar, if_neg h1, if_neg h2, if_neg h3, if_neg h4, if_pos h5,
      List.cons_append, List.nil_append]
    simp [parseStringBody, unescapeChar]
    rw [char_ofNat_eq_of_toNat c 9 h5]
  by_cases h6 : c.toNat < 0x20 ∨ c = '<' ∨ c = '>' ∨ c = '&'
  · simp only [goEscapeChar, if_neg h1, if_neg h2, if_neg h3, if_neg h4, if_neg h5,
      if_pos h6, List.cons_append, List.nil_append]
    have hlt : c.toNat < 256 := by
      rcases h6 with h | h | h | h
      · omega
      all_goals rw [h]; decide
    have hhi : hexVal (hexLower (c.toNat / 16)) = some (c.toNat / 16) :=
      hexVal_hexLower _ (by omega)
    have hlo : hexVal (hexLower (c.toNat % 16)) = some (c.toNat % 16) :=
      hexVal_hexLower _ (by omega)
    have hval0 : hexVal '0' = some 0 := by decide
    have hn : 16 * (c.toNat / 16) + c.toNat % 16 = c.toNat := by omega
    have hsur : c.toNat < 55296 := by omega
    simp [parseStringBody, hex4, hhi, hlo, hval0]
    rw [hn]
    simp [hsur]
  by_cases h7 : c.toNat = 0x2028
  · simp only [goEscapeChar, if_neg h1, if_neg h2, if_neg h3, if_neg h4, if_neg h5,
      if_neg h6, if_pos h7, List.cons_append, List.nil_append]
    have hx : hex4 '2' '0' '2' '8' = some 0x2028 := by decide
    simp [parseStringBody, hx]
    rw [char_ofNat_eq_of_toNat c 0x2028 h7]
  by_cases h8 : c.toNat = 0x2029
  · simp only [goEscapeChar, if_neg h1, if_neg h2, if_neg h3, if_neg h4, if_neg h5,
      if_neg h6, if_neg h7, if_pos h8, List.cons_append, List.nil_append]
    have hx : hex4 '2' '0' '2' '9' = some 0x2029 := by decide
    simp [parseStringBody, hx]
    rw [char_ofNat_eq_of_toNat c 0x2029 h8]
  · simp only [goEscapeChar, if_neg h1, if_neg h2, if_neg h3, if_neg h4, if_neg h5,
      if_neg h6, if_neg h7, if_neg h8, List.cons_append, List.nil_append]
    have hge : ¬ c.toNat < 0x20 := fun hh => h6 (Or.inl hh)
    simp [parseStringBody, h1, h2, hge]

theorem goEscapeChar_length_pos (c : Char) : 1 ≤ (goEscapeChar c).length := by
  simp only [goEscapeChar]
  split_ifs <;> simp

theorem goEscape_length_ge (s : Str) : s.length ≤ (s.flatMap goEscapeChar).length := by
  induction s with
  | nil => simp
  | cons c cs ih =>
    simp only [List.flatMap_cons, List.length_append, List.length_cons]
    have := goEscapeChar_length_pos c
    omega

theorem parseStringBody_quoted (s : Str) : ∀ f tail, s.length < f →
    parseStringBody f (s.flatMap goEscapeChar ++ '"' :: tail) = some (s, tail) := by
  induction s with
  | nil =>
    intro f tail hf
    obtain ⟨g, rfl⟩ : ∃ g, f = g + 1 := ⟨f - 1, by omega⟩
    simp [parseStringBody]
  | cons c cs ih =>
    intro f tail hf
    obtain ⟨g, rfl⟩ : ∃ g, f = g + 1 := ⟨f - 1, by omega⟩
    simp only [List.flatMap_cons, List.append_assoc]
    rw [parseStringBody_escape g c _, ih g tail (by simp at hf; omega)]
    rfl

theorem parseStringBody_key (key : Str) (hk : key.flatMap goEscapeChar = key)
    (f : Nat) (tail : Str) (hf : key.length < f) :
    parseStringBody f (key ++ '"' :: tail) = some (key, tail) := by
  conv_lhs => rw [← hk]
  exact parseStringBody_quoted key f tail hf

theorem parseVal_string (f : Nat) (hf : 1 ≤ f) (s tail : Str) :
    parseVal f ('"' :: (s.flatMap goEscapeChar ++ '"' :: tail)) =
      some (Json.string s, tail) := by
  obtain ⟨g, rfl⟩ : ∃ g, f = g + 1 := ⟨f - 1, by omega⟩
  have hlen : s.length < (s.flatMap goEscapeChar ++ '"' :: tail).length := by
    rw [List.length_append, List.length_cons]
    have := goEscape_length_ge s
    omega
  show Option.map (fun p => (Json.string p.1, p.2))
      (parseStringBody (s.flatMap goEscapeChar ++ '"' :: tail).length
        (s.flatMap goEscapeChar ++ '"' :: tail)) = some (Json.string s, tail)
  rw [parseStringBody_quoted s _ tail hlen]
  rfl

theorem digitHead_facts (c : Char) (h : Char.isDigit c = true) :
    isJsonWs c = false ∧ ¬c = '"' ∧ ¬c = '{' ∧ ¬c = '[' ∧ ¬c = 't' ∧ ¬c = 'f' ∧
      ¬c = 'n' := by
  refine ⟨?_, ?_, ?_, ?_, ?_, ?_, ?_⟩
  · by_contra hw
    simp only [Bool.not_eq_false] at hw
    simp only [isJsonWs, Bool.or_eq_true, decide_eq_true_eq] at hw
    rcases hw with ((h1 | h1) | h1) | h1 <;> rw [h1] at h <;> exact absurd h (by decide)
  all_goals intro hc; rw [hc] at h; exact absurd h (by decide)

theorem skipWs_cons_of_not_ws (c : Char) (x : Str) (h : isJsonWs c = false) :
    skipWs (c :: x) = c :: x := by
  simp [skipWs, List.dropWhile_cons, h]

theorem parseVal_number (f : Nat) (hf : 1 ≤ f) (e : Int) (r : Str) :
    parseVal f (intRepr e ++ '}' :: r) = some (Json.num e true, '}' :: r) := by
  obtain ⟨g, rfl⟩ : ∃ g, f = g + 1 := ⟨f - 1, by omega⟩
  by_cases he : e < 0
  · rw [show intRepr e ++ '}' :: r = '-' :: (natDigits e.natAbs ++ '}' :: r) from by
      simp [intRepr, he]]
    show (parseNumber ('-' :: (natDigits e.natAbs ++ '}' :: r))).map
        (fun p => (Json.num p.1 p.2.1, p.2.2)) = some (Json.num e true, '}' :: r)
    rw [show ('-' :: (natDigits e.natAbs ++ '}' :: r) : Str) =
          intRepr e ++ '}' :: r from by simp [intRepr, he]]
    rw [parseNumber_intRepr]
    rfl
  · rw [show intRepr e ++ '}' :: r = natDigits e.toNat ++ '}' :: r from by
      simp [intRepr, he]]
    obtain ⟨d, ds, hd⟩ : ∃ d ds, natDigits e.toNat = d :: ds := by
      cases h : natDigits e.toNat with
      | nil => exact absurd h (natDigits_ne_nil _)
      | cons d ds => exact ⟨d, ds, rfl⟩
    have hdig : Char.isDigit d = true :=
      natDigitsAux_mem (e.toNat + 1) e.toNat (by omega) d (by rw [natDigits] at hd; rw [hd]; simp)
    obtain ⟨hws, hq, hbr, hsq, ht, hfa, hn⟩ := digitHead_facts d hdig
    rw [hd, List.cons_append]
    simp only [parseVal]
    rw [skipWs_cons_of_not_ws d _ hws]
    simp only [if_neg hq, if_neg hbr, if_neg hsq, if_neg ht, if_neg hfa, if_neg hn,
      if_pos (Or.inr hdig)]
    rw [show (d :: (ds ++ '}' :: r) : Str) = natDigits e.toNat ++ '}' :: r from by
      rw [hd, List.cons_append]]
    rw [show natDigits e.toNat = intRepr e from by simp [intRepr, he]]
    rw [parseNumber_intRepr]
    rfl

theorem pmm_expires (f : Nat) (e : Int) (r : Str) :
    parseMembersMore (f + 2)
      (',' :: '"' :: (str "expires_in" ++ '"' :: ':' :: (intRepr e ++ '}' :: r))) =
      some ([(str "expires_in", Json.num e true)], r) := by
  simp only [show f + 2 = (f + 1) + 1 from rfl, parseMembersMore]
  rw [skipWs_cons_of_not_ws ',' _ (by decide)]
  simp only []
  rw [skipWs_cons_of_not_ws '"' _ (by decide)]
  simp only [if_pos rfl]
  rw [parseStringBody_key (str "expires_in") (by decide) _ _ (by simp [str])]
  simp only [if_true]
  rw [skipWs_cons_of_not_ws ':' _ (by decide)]
  simp only []
  rw [parseVal_number (f + 1) (by omega) e r]
  simp only []
  rw [skipWs_cons_of_not_ws '}' _ (by decide)]
  simp only []

theorem pmm_token_type (f : Nat) (ty : Str) (e : Int) (r : Str) :
    parseMembersMore (f + 3)
      (',' :: '"' :: (str "token_type" ++ '"' :: ':' :: ('"' :: (ty.flatMap goEscapeChar ++ '"' ::
        (',' :: '"' :: (str "expires_in" ++ '"' :: ':' :: (intRepr e ++ '}' :: r))))))) =
      some ([(str "token_type", Json.string ty), (str "expires_in", Json.num e true)], r) := by
  rw [show f + 3 = (f + 2) + 1 from rfl]
  rw [parseMembersMore]
  rw [skipWs_cons_of_not_ws ',' _ (by decide)]
  simp only []
  rw [skipWs_cons_of_not_ws '"' _ (by decide)]
  simp only [if_pos rfl]
  rw [parseStringBody_key (str "token_type") (by decide) _ _ (by simp [str])]
  simp only []
  rw [skipWs_cons_of_not_ws ':' _ (by decide)]
  simp only []
  rw [parseVal_string (f + 2) (by omega) ty _]
  simp only []
  rw [pmm_expires f e r]
  simp only [if_true]

theorem pmm_refresh (f : Nat) (rt ty : Str) (e : Int) (r : Str) :
    parseMembersMore (f + 4)
      (',' :: '"' :: (str "refresh_token" ++ '"' :: ':' :: ('"' :: (rt.flatMap goEscapeChar ++ '"' ::
        (',' :: '"' :: (str "token_type" ++ '"' :: ':' :: ('"' :: (ty.flatMap goEscapeChar ++ '"' ::
        (',' :: '"' :: (str "expires_in" ++ '"' :: ':' :: (intRepr e ++ '}' :: r))))))))))) =
      some ([(str "refresh_token", Json.string rt), (str "token_type", Json.string ty),
             (str "expires_in", Json.num e true)], r) := by
  rw [show f + 4 = (f + 3) + 1 from rfl]
  rw [parseMembersMore]
  rw [skipWs_cons_of_not_ws ',' _ (by decide)]
  simp only []
  rw [skipWs_cons_of_not_ws '"' _ (by decide)]
  simp only [if_pos rfl]
  rw [parseStringBody_key (str "refresh_token") (by decide) _ _ (by simp [str])]
  simp only []
  rw [skipWs_cons_of_not_ws ':' _ (by decide)]
  simp only []
  rw [parseVal_string (f + 3) (by omega) rt _]
  simp only []
  rw [pmm_token_type f ty e r]
  simp only [if_true]

theorem parseMembers_token (f : Nat) (a rt ty : Str) (e : Int) (r : Str) :
    parseMembers (f + 5)
      ('"' :: (str "access_token" ++ '"' :: ':' :: ('"' :: (a.flatMap goEscapeChar ++ '"' ::
        (',' :: '"' :: (str "refresh_token" ++ '"' :: ':' :: ('"' :: (rt.flatMap goEscapeChar ++ '"' ::
        (',' :: '"' :: (str "token_type" ++ '"' :: ':' :: ('"' :: (ty.flatMap goEscapeChar ++ '"' ::
        (',' :: '"' :: (str "expires_in" ++ '"' :: ':' :: (intRepr e ++ '}' :: r))))))))))))))) =
      some (Json.obj [(str "access_token", Json.string a), (str "refresh_token", Json.string rt),
             (str "token_type", Json.string ty), (str "expires_in", Json.num e true)], r) := by
  rw [show f + 5 = (f + 4) + 1 from rfl]
  rw [parseMembers]
  rw [skipWs_cons_of_not_ws '"' _ (by decide)]
  simp only []
  rw [if_neg (show ¬('"' = '}') from by decide)]
  simp only [if_true]
  rw [parseStringBody_key (str "access_token") (by decide) _ _ (by simp [str])]
  simp only []
  rw [skipWs_cons_of_not_ws ':' _ (by decide)]
  simp only []
  rw [parseVal_string (f + 4) (by omega) a _]
  simp only []
  rw [pmm_refresh f rt ty e r]

theorem parseVal_marshal (t : Token) (f : Nat) :
    parseVal (f + 6) (marshalToken t) =
      some (Json.obj [(str "access_token", Json.string t.accessToken),
        (str "refresh_token", Json.string t.refreshToken),
        (str "token_type", Json.string t.tokenType),
        (str "expires_in", Json.num t.expiresIn true)], []) := by
  have hshape : marshalToken t =
      '{' :: '"' :: (str "access_token" ++ '"' :: ':' :: ('"' :: (t.accessToken.flatMap goEscapeChar ++ '"' ::
        (',' :: '"' :: (str "refresh_token" ++ '"' :: ':' :: ('"' :: (t.refreshToken.flatMap goEscapeChar ++ '"' ::
        (',' :: '"' :: (str "token_type" ++ '"' :: ':' :: ('"' :: (t.tokenType.flatMap goEscapeChar ++ '"' ::
        (',' :: '"' :: (str "expires_in" ++ '"' :: ':' ::
          (intRepr t.expiresIn ++ '}' :: ([] : Str))))))))))))))) := by
    simp [marshalToken, quoteStr, str]
  rw [hshape]
  rw [show f + 6 = (f + 5) + 1 from rfl]
  rw [parseVal]
  rw [skipWs_cons_of_not_ws '{' _ (by decide)]
  simp only []
  rw [if_neg (show ¬('{' = '"') from by decide)]
  simp only [if_true]
  rw [parseMembers_token f t.accessToken t.refreshToken t.tokenType t.expiresIn []]

theorem tokenFromJson_four (a rt ty : Str) (e : Int)
    (h1 : int64Min ≤ e) (h2 : e ≤ int64Max) :
    tokenFromJson (Json.obj [(str "access_token", Json.string a),
      (str "refresh_token", Json.string rt), (str "token_type", Json.string ty),
      (str "expires_in", Json.num e true)]) = some ⟨a, rt, ty, e⟩ := by
  have k1 : toLowerAscii (str "access_token") = str "access_token" := by decide
  have k2 : toLowerAscii (str "refresh_token") = str "refresh_token" := by decide
  have k3 : toLowerAscii (str "token_type") = str "token_type" := by decide
  have k4 : toLowerAscii (str "expires_in") = str "expires_in" := by decide
  have d12 : ¬ (str "refresh_token" = str "access_token") := by decide
  have d13 : ¬ (str "token_type" = str "access_token") := by decide
  have d23 : ¬ (str "token_type" = str "refresh_token") := by decide
  have d14 : ¬ (str "expires_in" = str "access_token") := by decide
  have d24 : ¬ (str "expires_in" = str "refresh_token") := by decide
  have d34 : ¬ (str "expires_in" = str "token_type") := by decide
  simp [tokenFromJson, List.foldlM, setTokenField, k1, k2, k3, k4,
    d12, d13, d23, d14, d24, d34, h1, h2, zeroToken]

theorem unmarshalToken_marshalToken (t : Token)
    (h1 : int64Min ≤ t.expiresIn) (h2 : t.expiresIn ≤ int64Max) :
    unmarshalToken (marshalToken t) = some t := by
  have hlen : 5 ≤ (marshalToken t).length := by
    simp [marshalToken, quoteStr, str]
  obtain ⟨f, hf⟩ : ∃ f, (marshalToken t).length + 1 = f + 6 :=
    ⟨(marshalToken t).length - 5, by omega⟩
  unfold unmarshalToken
  rw [hf, parseVal_marshal]
  simp only []
  rw [show skipWs [] = ([] : Str) from rfl]
  simp only [if_pos rfl]
  exact tokenFromJson_four t.accessToken t.refreshToken t.tokenType t.expiresIn h1 h2

/-! ## Claim C6 -/

/-- C6: `Save` then `Load` for the same provider on the same storage root
returns exactly the saved token — every field round-trips unchanged
through the JSON file.  The `expires_in` field is a Go `int64`, whence
the range hypothesis. -/
theorem save_load_roundtrip (dir provider : Str) (t : Token) (fs : FS)
    (h1 : int64Min ≤ t.expiresIn) (h2 : t.expiresIn ≤ int64Max) :
    TokenStorage.Load dir provider (TokenStorage.Save dir provider t fs) = Except.ok t := by
  simp only [TokenStorage.Load, TokenStorage.Save, fsWrite, osReadFile]
  rw [List.find?_cons_of_pos _ (by simp)]
  simp [unmarshalToken_marshalToken t h1 h2]

/-- Witness for `save_load_roundtrip` at a concrete root, provider and
token. -/
theorem save_load_roundtrip_witness :
    TokenStorage.Load (str "tokens") (str "youtube")
      (TokenStorage.Save (str "tokens") (str "youtube")
        (Token.mk (str "acc") (str "ref") (str "Bearer") 3600) []) =
      Except.ok (Token.mk (str "acc") (str "ref") (str "Bearer") 3600) :=
  save_load_roundtrip (str "tokens") (str "youtube") _ [] (by decide) (by decide)

end Feedmix
